import Mathlib

/-!
Verification of the dotjs file-templates extension
(`src/templates-tree-provider.ts`, second revision of the file).

The development shallowly embeds:
  * the interactive resolution protocol (`interactives`, `context.<kind>`,
    `run`) from the `createFile` operation;
  * the render-parameter construction (`params`, including the `DATE`
    formatting chain) and the surrounding render/write pipeline;
  * the workspace template catalog (`workspaceNode`,
    `workspaceNodeChildren`, the `readdirp` scan with its directory and
    file filters, `readTemplate`, and the watcher create/delete handlers).

JavaScript-specific behaviour (Map.set keeping the slot of the first
insertion, Array.findIndex returning -1, Array.splice with a negative
start index, object spread with last-write-wins, String.includes as a
substring test) is modelled explicitly by small `js...` helpers.
-/

namespace DotjsTemplates

/-- The six interaction kinds passed to `interactives` in `createFile`. -/
inductive Kind where
  | confirm
  | prompt
  | select
  | multiselect
  | multiselectNative
  | multipath
deriving DecidableEq

/-- Values produced by the interaction functions
(`Promise<undefined | boolean | string | string[]>`). -/
inductive JsValue where
  | undef
  | bool (b : Bool)
  | str (s : String)
  | strs (l : List String)
deriving DecidableEq

/-- A deferred directive as stored in the `interactives` map: the
interaction kind it was registered under and the captured arguments. -/
structure Directive where
  kind : Kind
  args : List JsValue
deriving DecidableEq

/-- JavaScript `Map.prototype.set`: if the key is already present its value
is replaced in place (the entry keeps its original position); otherwise the
new entry is appended at the end. -/
def mapSet {α : Type} : List (String × α) → String → α → List (String × α)
  | [], k, v => [(k, v)]
  | (k', v') :: m, k, v =>
    if k' = k then (k, v) :: m else (k', v') :: mapSet m k v

/-- The value bound to key `k` by the LAST matching entry of an ordered
association list; this is the lookup semantics of a JavaScript object built
from a property list in which later writes win. -/
def lastAssoc {α : Type} (k : String) : List (String × α) → Option α
  | [] => none
  | p :: l =>
    match lastAssoc k l with
    | some v => some v
    | none => if p.1 = k then some p.2 else none

/-- Keep the first occurrence of every element, dropping later duplicates. -/
def dedupFirst : List String → List String
  | [] => []
  | a :: l => a :: dedupFirst (l.filter (fun b => b != a))
termination_by l => l.length
decreasing_by
  simp only [List.length_cons]
  exact Nat.lt_succ_of_le (List.length_filter_le _ _)

/-- The registry built by replaying a sequence of `context.<kind>(key, ...)`
registrations through `Map.set`. -/
def buildRegistry (regs : List (String × Directive)) : List (String × Directive) :=
  regs.foldl (fun m p => mapSet m p.1 p.2) []

/-- One `context.<kind>(propName, ...args)` call from the compile pass:
it stores the pair of the interaction function and the captured arguments
under `propName` via `interactives.set` and returns the empty string.  The call
performs no interaction, hence the empty third component records that the
body invokes no interaction function. -/
def contextCall (reg : List (String × Directive)) (kind : Kind) (key : String)
    (args : List JsValue) : List (String × Directive) × String × List Directive :=
  (mapSet reg key { kind := kind, args := args }, "", [])

/-- An event of the compile pass as seen by the protocol: the external
template compiler either emits literal text or calls one of the six
context helpers. -/
inductive TemplateOp where
  | text (s : String)
  | directive (key : String) (kind : Kind) (args : List JsValue)

/-- The text a compile-pass event contributes to the compiled output:
literal text contributes itself, a context-helper call contributes the
placeholder returned by the helper. -/
def opPlainText : TemplateOp → String
  | .text s => s
  | .directive _ _ _ => ""

/-- The registration a compile-pass event performs, if any. -/
def opDirective : TemplateOp → Option (String × Directive)
  | .text _ => none
  | .directive key kind args => some (key, { kind := kind, args := args })

/-- Result of a compile pass: the directive registry, the substituted text,
and the interaction functions actually invoked while compiling. -/
structure CompileResult where
  registry : List (String × Directive)
  output : String
  calls : List Directive
deriving DecidableEq

/-- The compile pass: replay the events of a template compilation against
the `context` object returned by `interactives`. -/
def compilePass (reg : List (String × Directive)) : List TemplateOp → CompileResult
  | [] => { registry := reg, output := "", calls := [] }
  | .text s :: ops =>
    let r := compilePass reg ops
    { r with output := s ++ r.output }
  | .directive key kind args :: ops =>
    let c := contextCall reg kind key args
    let r := compilePass c.1 ops
    { registry := r.registry, output := c.2.1 ++ r.output, calls := c.2.2 ++ r.calls }

/-- Concatenation of the text each compile-pass event contributes. -/
def plainOutput (ops : List TemplateOp) : String :=
  (ops.map opPlainText).foldr (fun a b => a ++ b) ""

/-- The `run` loop of `interactives`:
a for-of loop over the entries of the `interactives` map that awaits
`interactive(...args)` for each entry in turn and stores the answer in
`result[key]`.
The first component is the trace of directives actually invoked, in order;
the second is the rejected error or the accumulated `result` record. -/
def runAux (oracle : Kind → List JsValue → Except String JsValue) :
    List (String × Directive) → List (String × Directive) × Except String (List (String × JsValue))
  | [] => ([], Except.ok [])
  | (k, d) :: rest =>
    match oracle d.kind d.args with
    | Except.error e => ([(k, d)], Except.error e)
    | Except.ok v =>
      match runAux oracle rest with
      | (tr, Except.error e) => ((k, d) :: tr, Except.error e)
      | (tr, Except.ok res) => ((k, d) :: tr, Except.ok ((k, v) :: res))

/-- JavaScript `String.prototype.replace('T', ' ')` on the character list:
only the first occurrence of `'T'` is replaced by a space. -/
def replaceFirstT : List Char → List Char
  | [] => []
  | c :: cs => if c = 'T' then ' ' :: cs else c :: replaceFirstT cs

/-- A character matched by the regular-expression class `\w`. -/
def isWordChar (c : Char) : Bool := c.isAlphanum || c = '_'

/-- Drop the maximal leading run of `\w` characters. -/
def dropWordRun : List Char → List Char
  | [] => []
  | c :: cs => if isWordChar c then dropWordRun cs else c :: cs

/-- JavaScript `String.prototype.replace(/\.\w+/, '')`: delete the first
occurrence of a dot followed by at least one word character together with
the maximal word-character run after the dot; everything else is kept. -/
def removeDotWord : List Char → List Char
  | [] => []
  | c :: cs =>
    if c = '.' then
      match cs with
      | [] => ['.']
      | d :: ds => if isWordChar d then dropWordRun ds else '.' :: removeDotWord (d :: ds)
    else c :: removeDotWord cs

/-- The `DATE` value computed in `createFile`:
`new Date().toISOString().replace('T', ' ').replace(/\.\w+/, '')`,
as a function of the ISO string produced by `toISOString`. -/
def dateFormat (iso : String) : String :=
  String.mk (removeDotWord (replaceFirstT iso.data))

/-- Modelled from the spec: the claimed `DATE` value, the current instant
"truncated to the minute" — the `YYYY-MM-DD HH:MM` prefix (16 characters)
of the ISO timestamp with `'T'` replaced by a space. -/
def truncToMinute (iso : String) : String :=
  String.mk ((replaceFirstT iso.data).take 16)

/-- Node `path.join(a, b)` for a simple relative component. -/
def pathJoin (a b : String) : String := a ++ "/" ++ b

/-- The static inputs of one `createFile` run: the target directory and its
basename, the filename chosen by the user, the extension of the template, the OS
user name, the `toISOString` snapshot, and the workspace-configured custom
variables. -/
structure PipelineInput where
  dir : String
  dirName : String
  name : String
  extension : String
  user : String
  isoNow : String
  customVars : List (String × JsValue)

/-- `const filename = join(dir, name + extension)`. -/
def targetFilename (inp : PipelineInput) : String :=
  pathJoin inp.dir (inp.name ++ inp.extension)

/-- The seven built-in computed entries of the `params` object literal, in
source order. -/
def builtinParams (inp : PipelineInput) : List (String × JsValue) :=
  [("DIR", JsValue.str inp.dir),
   ("DIRNAME", JsValue.str inp.dirName),
   ("FILE", JsValue.str (inp.name ++ inp.extension)),
   ("FILE_PATH", JsValue.str (targetFilename inp)),
   ("USER", JsValue.str inp.user),
   ("NAME", JsValue.str inp.name),
   ("DATE", JsValue.str (dateFormat inp.isoNow))]

/-- The property list of the `params` object literal: built-ins, then
`...templatesManager.config.customVars`, then `...(await run())`. -/
def renderParams (inp : PipelineInput) (answers : List (String × JsValue)) :
    List (String × JsValue) :=
  builtinParams inp ++ inp.customVars ++ answers

/-- Reading a JavaScript object assembled from a property list: the last
write to a key wins. -/
def jsObjLookup (l : List (String × JsValue)) : String → Option JsValue :=
  fun k => lastAssoc k l

/-- The tail of `createFile` guarded by the name/overwrite checks:
`await run()`, build `params`, render, and `writeFile`.  The result is
`some (filename, contents)` when a file write happens and `none` when the
rejection of an interaction aborts the operation (the surrounding
`try/catch` reports the error and writes nothing). -/
def createFile (inp : PipelineInput) (reg : List (String × Directive))
    (oracle : Kind → List JsValue → Except String JsValue)
    (render : (String → Option JsValue) → String) : Option (String × String) :=
  match (runAux oracle reg).2 with
  | Except.error _ => none
  | Except.ok answers =>
    some (targetFilename inp, render (jsObjLookup (renderParams inp answers)))

/-- `const templateExtension = '.dotjs'`. -/
def templateExtension : String := ".dotjs"

/-- JavaScript `String.prototype.endsWith`. -/
def jsEndsWith (s suffixStr : String) : Bool :=
  suffixStr.data.isSuffixOf s.data

/-- Does `needle` occur as a contiguous run inside the character list? -/
def charsContains (needle : List Char) : List Char → Bool
  | [] => needle.isEmpty
  | c :: rest => needle.isPrefixOf (c :: rest) || charsContains needle rest

/-- JavaScript `String.prototype.includes`: a substring test. -/
def jsIncludes (s sub : String) : Bool :=
  charsContains sub.data s.data

/-- Node `path.basename`: the part of the path after the last slash. -/
def jsBasename (p : String) : String :=
  String.mk ((p.data.reverse.takeWhile (fun c => c != '/')).reverse)

/-- A catalog record, as built by `readTemplate` (the `contextValue`,
`command` and `resourceUri` presentation fields are omitted). -/
structure Template where
  name : String
  label : String
  code : String
  path : String
deriving DecidableEq

/-- `readTemplate`: read the file and derive `name` by stripping the
template extension from the basename (`basename.slice(0, -ext.length)`).
The filesystem is modelled as a total content map `fs`. -/
def readTemplate (fs : String → String) (bn fullPath : String) : Template :=
  { name :=
      if jsEndsWith bn templateExtension then
        String.mk (bn.data.take (bn.data.length - templateExtension.data.length))
      else bn,
    label := bn,
    code := fs fullPath,
    path := fullPath }

/-- The `directoryFilter` lambda passed to `readdirp`:
`!d.basename.includes('node_modules') && !d.basename.includes('dist') && !d.basename.includes('build')`.
A directory is excluded when its basename CONTAINS one of the three
substrings. -/
def excludedDirName (n : String) : Bool :=
  jsIncludes n "node_modules" || jsIncludes n "dist" || jsIncludes n "build"

/-- Modelled from the spec: the exclusion the claim describes — a directory
is excluded only when it is exactly named `node_modules`, `dist` or
`build`. -/
def specExcludedDirName (n : String) : Bool :=
  n == "node_modules" || n == "dist" || n == "build"

/-- A directory listing: a sibling sequence of files and subdirectories.
`nil` ends a sibling sequence; `file n rest` is a file named `n` followed
by its siblings; `dir n cs rest` is a directory named `n` with contents
`cs` followed by its siblings. -/
inductive FsTree where
  | nil : FsTree
  | file (name : String) (rest : FsTree) : FsTree
  | dir (name : String) (children : FsTree) (rest : FsTree) : FsTree

/-- The recursive `readdirp` walk with the two filters of the scan: descend
only into directories accepted by `directoryFilter`, and keep files whose
basename ends with `templateExtension`.  Entries are `(basename, fullPath)`
pairs, as in the `EntryInfo` records of `readdirp`. -/
def scan (pfx : String) : FsTree → List (String × String)
  | .nil => []
  | .file n rest =>
    (if jsEndsWith n templateExtension then [(n, pathJoin pfx n)] else []) ++ scan pfx rest
  | .dir n cs rest =>
    (if excludedDirName n then [] else scan (pathJoin pfx n) cs) ++ scan pfx rest

/-- Every file of a listing, with no filtering: the list of ancestor
directory basenames below the root, the file basename, and the full
path. -/
def allFiles (ancs : List String) (pfx : String) : FsTree → List (List String × String × String)
  | .nil => []
  | .file n rest => (ancs, n, pathJoin pfx n) :: allFiles ancs pfx rest
  | .dir n cs rest =>
    allFiles (ancs ++ [n]) (pathJoin pfx n) cs ++ allFiles ancs pfx rest

/-- The filter a scanned entry passes, expressed declaratively on the
unfiltered file listing: no ancestor directory basename is excluded by the
`directoryFilter`, and the file basename matches the template glob. -/
def scanKeep (x : List String × String × String) : Option (String × String) :=
  if x.1.all (fun a => !excludedDirName a) && jsEndsWith x.2.1 templateExtension then
    some (x.2.1, x.2.2)
  else none

/-- The template list a completed scan stores:
`files.map(readTemplate)` over the `readdirp` result. -/
def scanTemplates (fs : String → String) (root : String) (t : FsTree) : List Template :=
  (scan root t).map (fun e => readTemplate fs e.1 e.2)

/-- Modelled from the spec: the catalog the claim describes — exactly one
record per file whose name ends with the template extension and that does
not lie under a directory exactly named `node_modules`, `dist` or
`build`. -/
def specScanTemplates (fs : String → String) (root : String) (t : FsTree) : List Template :=
  (allFiles [] root t).filterMap (fun x =>
    if x.1.all (fun a => !specExcludedDirName a) && jsEndsWith x.2.1 templateExtension then
      some (readTemplate fs x.2.1 x.2.2)
    else none)

/-- JavaScript `Array.prototype.findIndex`: the first matching index, or
`-1` when no element matches. -/
def jsFindIndex {α : Type} (p : α → Bool) : List α → Int
  | [] => -1
  | a :: l =>
    if p a then 0
    else
      let r := jsFindIndex p l
      if r < 0 then -1 else r + 1

/-- JavaScript `Array.prototype.splice(start, 1)`: a negative `start`
counts from the end (clamped at 0), a too-large `start` deletes nothing. -/
def jsSplice1 {α : Type} (l : List α) (start : Int) : List α :=
  let s : Nat := if start < 0 then (start + l.length).toNat else min start.toNat l.length
  l.take s ++ l.drop (s + 1)

/-- Observable side effects of a watcher handler: firing the tree-change
event, or calling `update()` (a full rescan of the workspace). -/
inductive WatchEffect where
  | fireChange
  | startScan
deriving DecidableEq

/-- The `watcher.onDidCreate` handler: `readTemplate` the new file, push it
onto the list when the list is loaded (`w.templates?.push(t)`), and fire
the change event. -/
def onDidCreate (fs : String → String) (p : String) (ts? : Option (List Template)) :
    Option (List Template) × List WatchEffect :=
  let t := readTemplate fs (jsBasename p) p
  match ts? with
  | none => (none, [WatchEffect.fireChange])
  | some ts => (some (ts ++ [t]), [WatchEffect.fireChange])

/-- The `watcher.onDidDelete` handler:
`const index = w.templates?.findIndex(t => t.path === x.fsPath)`; when the
list is loaded `index` is a number (possibly `-1`), so `index !== undefined`
holds and `splice(index, 1)` runs and the change event fires. -/
def onDidDelete (p : String) (ts? : Option (List Template)) :
    Option (List Template) × List WatchEffect :=
  match ts? with
  | none => (none, [])
  | some ts =>
    (some (jsSplice1 ts (jsFindIndex (fun t => t.path == p) ts)), [WatchEffect.fireChange])

/-- The `watcher.onDidChange` handler: `update` — a full rescan. -/
def onDidChangeHandler (ts? : Option (List Template)) :
    Option (List Template) × List WatchEffect :=
  (ts?, [WatchEffect.startScan])

/-- The `_workspaces[key]` entry: the template list (`undefined` until a
scan completes) and the watcher subscriptions, counted. -/
structure WorkspaceEntry where
  templates : Option (List Template)
  subscriptionCount : Nat
deriving DecidableEq

/-- The per-workspace state visible to `workspaceNode` and
`workspaceNodeChildren`, together with the number of `update()` scans that
have been started and have not yet resolved. -/
structure WorkspaceModel where
  entry : Option WorkspaceEntry
  pendingScans : Nat
deriving DecidableEq

/-- Fetch the `_workspaces[key]` entry, creating a fresh one — with
undefined templates and no subscriptions — when the key is absent. -/
def ensureEntry (m : WorkspaceModel) : WorkspaceEntry :=
  m.entry.getD { templates := none, subscriptionCount := 0 }

/-- `workspaceNodeChildren`: return the loaded list, or the empty list when
no scan has completed; it starts no scan. -/
def workspaceNodeChildren (m : WorkspaceModel) : List Template × WorkspaceModel :=
  let w := ensureEntry m
  match w.templates with
  | some ts => (ts, { m with entry := some w })
  | none => ([], { m with entry := some w })

/-- The workspace tree node returned by `workspaceNode`. -/
structure WorkspaceNodeView where
  isEmpty : Bool
  isLoading : Bool
deriving DecidableEq

/-- `workspaceNode`: return a loaded node when templates are present;
otherwise install the three watcher subscriptions when absent, call
`update()` — starting one more scan — and return a loading node. -/
def workspaceNode (m : WorkspaceModel) : WorkspaceNodeView × WorkspaceModel :=
  let w := ensureEntry m
  match w.templates with
  | some ts =>
    ({ isEmpty := ts.isEmpty, isLoading := false }, { m with entry := some w })
  | none =>
    let w2 := if w.subscriptionCount = 0 then { w with subscriptionCount := 3 } else w
    ({ isEmpty := true, isLoading := true },
     { entry := some w2, pendingScans := m.pendingScans + 1 })

/-- Resolution of one outstanding `update()` scan: store the scanned list
and fire the change event. -/
def scanComplete (m : WorkspaceModel) (ts : List Template) : WorkspaceModel :=
  match m.entry with
  | some w => { entry := some { w with templates := some ts }, pendingScans := m.pendingScans - 1 }
  | none => m

/-- A fresh, never-queried workspace state. -/
def freshWorkspace : WorkspaceModel := { entry := none, pendingScans := 0 }

/-- Does an optional template list have pairwise-distinct names?  An
unloaded list counts as trivially unique. -/
def namesNodupOpt (o : Option (List Template)) : Prop :=
  ((o.getD []).map Template.name).Nodup

theorem lookup_mapSet {α : Type} (m : List (String × α)) (k k' : String) (v : α) :
    (mapSet m k v).lookup k' = if k' = k then some v else m.lookup k' := by
  induction m with
  | nil =>
    by_cases h : k' = k
    · subst h; simp [mapSet, List.lookup]
    · have hb : (k' == k) = false := beq_eq_false_iff_ne.mpr h
      simp [mapSet, List.lookup, hb, h]
  | cons p m ih =>
    obtain ⟨a, b⟩ := p
    by_cases hak : a = k
    · subst hak
      by_cases h : k' = a
      · subst h; simp [mapSet, List.lookup]
      · have hb : (k' == a) = false := beq_eq_false_iff_ne.mpr h
        simp [mapSet, List.lookup, hb, h]
    · by_cases h : k' = a
      · subst h
        simp [mapSet, hak, List.lookup]
      · have hb : (k' == a) = false := beq_eq_false_iff_ne.mpr h
        simp [mapSet, hak, List.lookup, hb, ih]

theorem keys_mapSet {α : Type} (m : List (String × α)) (k : String) (v : α) :
    (mapSet m k v).map Prod.fst =
      if k ∈ m.map Prod.fst then m.map Prod.fst else m.map Prod.fst ++ [k] := by
  induction m with
  | nil => simp [mapSet]
  | cons p m ih =>
    obtain ⟨a, b⟩ := p
    by_cases hak : a = k
    · subst hak; simp [mapSet]
    · by_cases hk : k ∈ m.map Prod.fst <;>
        simp [mapSet, hak, ih, hk, Ne.symm hak]

theorem mem_dedupFirst (a : String) : ∀ (l : List String), a ∈ dedupFirst l ↔ a ∈ l
  | [] => by simp [dedupFirst]
  | b :: l => by
    rw [dedupFirst]
    have ih := mem_dedupFirst a (l.filter (fun x => x != b))
    by_cases hab : a = b
    · subst hab; simp
    · simp only [List.mem_cons, hab, false_or]
      rw [ih, List.mem_filter]
      simp [hab]
termination_by l => l.length
decreasing_by
  simp only [List.length_cons]
  exact Nat.lt_succ_of_le (List.length_filter_le _ _)

theorem nodup_dedupFirst : ∀ (l : List String), (dedupFirst l).Nodup
  | [] => by simp [dedupFirst]
  | b :: l => by
    rw [dedupFirst]
    refine List.nodup_cons.mpr ⟨?_, nodup_dedupFirst (l.filter (fun x => x != b))⟩
    rw [mem_dedupFirst]
    simp [List.mem_filter]
termination_by l => l.length
decreasing_by
  simp only [List.length_cons]
  exact Nat.lt_succ_of_le (List.length_filter_le _ _)

theorem dedupFirst_append_single : ∀ (l : List String) (k : String),
    dedupFirst (l ++ [k]) = if k ∈ l then dedupFirst l else dedupFirst l ++ [k]
  | [], k => by simp [dedupFirst]
  | b :: l, k => by
    have ih := dedupFirst_append_single (l.filter (fun x => x != b)) k
    by_cases hkb : k = b
    · subst hkb
      rw [List.cons_append, dedupFirst, dedupFirst, List.filter_append]
      simp
    · rw [List.cons_append, dedupFirst, dedupFirst, List.filter_append]
      have hfk : List.filter (fun x => x != b) [k] = [k] := by simp [hkb]
      rw [hfk, ih]
      by_cases hkl : k ∈ l
      · simp [hkl, hkb, List.mem_filter]
      · have : k ∉ l.filter (fun x => x != b) := by simp [List.mem_filter, hkl]
        simp [hkl, hkb, this]
termination_by l k => l.length
decreasing_by
  simp only [List.length_cons]
  exact Nat.lt_succ_of_le (List.length_filter_le _ _)

theorem lastAssoc_append_single {α : Type} (k k' : String) (v : α)
    (l : List (String × α)) :
    lastAssoc k (l ++ [(k', v)]) = if k = k' then some v else lastAssoc k l := by
  induction l with
  | nil =>
    by_cases h : k = k' <;> simp [lastAssoc, h, Ne.symm]
  | cons p l ih =>
    rw [List.cons_append, lastAssoc, ih, lastAssoc]
    by_cases h : k = k' <;> cases hl : lastAssoc k l <;> simp [h, hl]

theorem buildRegistry_append_single (regs : List (String × Directive)) (k : String)
    (d : Directive) :
    buildRegistry (regs ++ [(k, d)]) = mapSet (buildRegistry regs) k d := by
  simp [buildRegistry, List.foldl_append]

theorem keys_buildRegistry (regs : List (String × Directive)) :
    (buildRegistry regs).map Prod.fst = dedupFirst (regs.map Prod.fst) := by
  induction regs using List.reverseRecOn with
  | nil => simp [buildRegistry, dedupFirst]
  | append_singleton regs p ih =>
    obtain ⟨k, d⟩ := p
    rw [buildRegistry_append_single, keys_mapSet, ih, List.map_append]
    simp only [List.map_cons, List.map_nil]
    rw [dedupFirst_append_single]
    by_cases hk : k ∈ regs.map Prod.fst
    · simp [hk, (mem_dedupFirst k (regs.map Prod.fst)).mpr hk]
    · have : k ∉ dedupFirst (regs.map Prod.fst) := fun hmem =>
        hk ((mem_dedupFirst k (regs.map Prod.fst)).mp hmem)
      simp [hk, this]

theorem lookup_buildRegistry (regs : List (String × Directive)) (k : String) :
    (buildRegistry regs).lookup k = lastAssoc k regs := by
  induction regs using List.reverseRecOn with
  | nil => simp [buildRegistry, lastAssoc, List.lookup]
  | append_singleton regs p ih =>
    obtain ⟨k', d⟩ := p
    rw [buildRegistry_append_single, lookup_mapSet, lastAssoc_append_single, ih]

theorem runAux_ok_trace (oracle : Kind → List JsValue → Except String JsValue)
    (h : ∀ kind args, ∃ v, oracle kind args = Except.ok v) :
    ∀ reg, (runAux oracle reg).1 = reg
  | [] => rfl
  | (k, d) :: rest => by
    obtain ⟨v, hv⟩ := h d.kind d.args
    have ih := runAux_ok_trace oracle h rest
    rw [runAux, hv]
    cases hr : runAux oracle rest with
    | mk tr res =>
      rw [hr] at ih
      cases res <;> simp_all

/-- C1: if the same directive key is declared more than once, the later
declaration overwrites the earlier value while the key keeps the registry
slot of its first declaration — the key list of the built registry is the
first-occurrence deduplication of the declaration keys, and each key is
bound to its last declared directive — and `run` invokes the interaction
provider exactly once per key (the registry key list has no duplicates),
in the order of first declaration (the invocation trace is exactly the
registry). -/
theorem directive_overwrite_and_run_order (regs : List (String × Directive))
    (oracle : Kind → List JsValue → Except String JsValue)
    (hok : ∀ kind args, ∃ v, oracle kind args = Except.ok v) :
    (buildRegistry regs).map Prod.fst = dedupFirst (regs.map Prod.fst)
    ∧ ((buildRegistry regs).map Prod.fst).Nodup
    ∧ (∀ k, (buildRegistry regs).lookup k = lastAssoc k regs)
    ∧ (runAux oracle (buildRegistry regs)).1 = buildRegistry regs := by
  refine ⟨keys_buildRegistry regs, ?_, fun k => lookup_buildRegistry regs k,
    runAux_ok_trace oracle hok _⟩
  rw [keys_buildRegistry]
  exact nodup_dedupFirst _

/-- Witness for C1 at a concrete declaration sequence in which the key `x`
is declared twice with different kinds and arguments. -/
theorem directive_overwrite_and_run_order_witness :
    ((buildRegistry [("x", ⟨Kind.confirm, []⟩), ("y", ⟨Kind.prompt, []⟩),
        ("x", ⟨Kind.select, [JsValue.str "a"]⟩)]).map Prod.fst
      = dedupFirst ["x", "y", "x"])
    ∧ ((buildRegistry [("x", ⟨Kind.confirm, []⟩), ("y", ⟨Kind.prompt, []⟩),
        ("x", ⟨Kind.select, [JsValue.str "a"]⟩)]).map Prod.fst).Nodup
    ∧ (∀ k, (buildRegistry [("x", ⟨Kind.confirm, []⟩), ("y", ⟨Kind.prompt, []⟩),
        ("x", ⟨Kind.select, [JsValue.str "a"]⟩)]).lookup k
      = lastAssoc k [("x", ⟨Kind.confirm, []⟩), ("y", ⟨Kind.prompt, []⟩),
        ("x", ⟨Kind.select, [JsValue.str "a"]⟩)])
    ∧ (runAux (fun _ _ => Except.ok (JsValue.str "v"))
        (buildRegistry [("x", ⟨Kind.confirm, []⟩), ("y", ⟨Kind.prompt, []⟩),
          ("x", ⟨Kind.select, [JsValue.str "a"]⟩)])).1
      = buildRegistry [("x", ⟨Kind.confirm, []⟩), ("y", ⟨Kind.prompt, []⟩),
          ("x", ⟨Kind.select, [JsValue.str "a"]⟩)] :=
  directive_overwrite_and_run_order
    [("x", ⟨Kind.confirm, []⟩), ("y", ⟨Kind.prompt, []⟩),
      ("x", ⟨Kind.select, [JsValue.str "a"]⟩)]
    (fun _ _ => Except.ok (JsValue.str "v"))
    (fun _ _ => ⟨JsValue.str "v", rfl⟩)

/-- C4: during template compilation a `context.<kind>(key, ...args)` call
never invokes the underlying interaction function (the compile pass makes
no interaction calls), contributes only the synchronously returned empty
string to the compiled text (the output is the concatenation of the
literal text pieces alone), and registers or overwrites the directive in
the ordered registry via the `Map.set` semantics. -/
theorem compile_registers_without_invoking (reg : List (String × Directive))
    (ops : List TemplateOp) :
    (compilePass reg ops).calls = []
    ∧ (compilePass reg ops).output = plainOutput ops
    ∧ (compilePass reg ops).registry =
        (ops.filterMap opDirective).foldl (fun m p => mapSet m p.1 p.2) reg := by
  induction ops generalizing reg with
  | nil => exact ⟨rfl, rfl, rfl⟩
  | cons op ops ih =>
    cases op with
    | text s =>
      obtain ⟨h1, h2, h3⟩ := ih reg
      simp [compilePass, plainOutput, opPlainText, opDirective, h1, h3]
      rw [h2]; rfl
    | directive key kind args =>
      obtain ⟨h1, h2, h3⟩ := ih (mapSet reg key ⟨kind, args⟩)
      simp [compilePass, contextCall, plainOutput, opPlainText, opDirective, h1, h3]
      rw [h2]; rfl

/-- C3: when an interaction function rejects, `run` stops at the rejected
directive — its invocation trace is exactly the prefix up to and including
the failing entry, entries after it are never invoked — the rejection
propagates as the result of `run`, and `createFile` writes no file. -/
theorem run_rejection_aborts (oracle : Kind → List JsValue → Except String JsValue)
    (pre post : List (String × Directive)) (k : String) (d : Directive) (e : String)
    (hpre : ∀ p ∈ pre, ∃ v, oracle p.2.kind p.2.args = Except.ok v)
    (hfail : oracle d.kind d.args = Except.error e)
    (inp : PipelineInput) (render : (String → Option JsValue) → String) :
    (runAux oracle (pre ++ (k, d) :: post)).1 = pre ++ [(k, d)]
    ∧ (runAux oracle (pre ++ (k, d) :: post)).2 = Except.error e
    ∧ createFile inp (pre ++ (k, d) :: post) oracle render = none := by
  have main : runAux oracle (pre ++ (k, d) :: post) = (pre ++ [(k, d)], Except.error e) := by
    induction pre with
    | nil => simp [runAux, hfail]
    | cons q pre ih =>
      obtain ⟨a, b⟩ := q
      obtain ⟨v, hv⟩ := hpre (a, b) (by simp)
      have ih2 := ih (fun p hp => hpre p (by simp [hp]))
      simp only [List.cons_append, runAux, hv, List.append_eq, ih2]
  exact ⟨by rw [main], by rw [main], by simp [createFile, main]⟩

/-- Witness for C3: a three-directive registry in which the second
interaction rejects; the trace stops after the second entry and no file
is written. -/
theorem run_rejection_aborts_witness :
    (∀ p ∈ [("a", (⟨Kind.confirm, []⟩ : Directive))],
      ∃ v, (fun (kind : Kind) (_ : List JsValue) =>
        match kind with
        | Kind.prompt => Except.error "closed"
        | _ => Except.ok JsValue.undef) p.2.kind p.2.args = Except.ok v)
    ∧ (runAux (fun kind _ =>
        match kind with
        | Kind.prompt => Except.error "closed"
        | _ => Except.ok JsValue.undef)
        ([("a", ⟨Kind.confirm, []⟩)] ++ ("b", ⟨Kind.prompt, []⟩) :: [("c", ⟨Kind.select, []⟩)])).1
      = [("a", ⟨Kind.confirm, []⟩)] ++ [("b", ⟨Kind.prompt, []⟩)]
    ∧ (runAux (fun kind _ =>
        match kind with
        | Kind.prompt => Except.error "closed"
        | _ => Except.ok JsValue.undef)
        ([("a", ⟨Kind.confirm, []⟩)] ++ ("b", ⟨Kind.prompt, []⟩) :: [("c", ⟨Kind.select, []⟩)])).2
      = Except.error "closed"
    ∧ createFile ⟨"/w", "w", "f", ".ts", "u", "2020-01-02T03:04:05.678Z", []⟩
        ([("a", ⟨Kind.confirm, []⟩)] ++ ("b", ⟨Kind.prompt, []⟩) :: [("c", ⟨Kind.select, []⟩)])
        (fun kind _ =>
          match kind with
          | Kind.prompt => Except.error "closed"
          | _ => Except.ok JsValue.undef)
        (fun _ => "out")
      = none :=
  ⟨fun p hp => by
      rw [List.mem_singleton] at hp
      subst hp
      exact ⟨JsValue.undef, rfl⟩,
    run_rejection_aborts
      (fun kind _ =>
        match kind with
        | Kind.prompt => Except.error "closed"
        | _ => Except.ok JsValue.undef)
      [("a", ⟨Kind.confirm, []⟩)] [("c", ⟨Kind.select, []⟩)] "b" ⟨Kind.prompt, []⟩ "closed"
      (fun p hp => by
        rw [List.mem_singleton] at hp
        subst hp
        exact ⟨JsValue.undef, rfl⟩)
      rfl
      ⟨"/w", "w", "f", ".ts", "u", "2020-01-02T03:04:05.678Z", []⟩
      (fun _ => "out")⟩

theorem lastAssoc_append {α : Type} (k : String) (l1 l2 : List (String × α)) :
    lastAssoc k (l1 ++ l2) =
      match lastAssoc k l2 with
      | some v => some v
      | none => lastAssoc k l1 := by
  induction l1 with
  | nil => cases h : lastAssoc k l2 <;> simp [h, lastAssoc]
  | cons p l1 ih =>
    rw [List.cons_append, lastAssoc, ih, lastAssoc]
    cases lastAssoc k l2 <;> cases lastAssoc k l1 <;> simp

/-- C9: reading any key of the `params` object resolves with the
precedence of the object literal — a resolved interactive answer wins over
a configured custom variable, which wins over the seven built-in computed
entries (target directory, directory name, target filename, full target
path, OS user, logical name, date). -/
theorem render_context_precedence (inp : PipelineInput)
    (answers : List (String × JsValue)) (k : String) :
    jsObjLookup (renderParams inp answers) k =
      (match lastAssoc k answers with
       | some v => some v
       | none =>
         match lastAssoc k inp.customVars with
         | some v => some v
         | none => lastAssoc k (builtinParams inp))
    ∧ (builtinParams inp).map Prod.fst =
        ["DIR", "DIRNAME", "FILE", "FILE_PATH", "USER", "NAME", "DATE"] := by
  constructor
  · show lastAssoc k (builtinParams inp ++ inp.customVars ++ answers) = _
    rw [lastAssoc_append, lastAssoc_append]
    cases lastAssoc k answers <;> cases lastAssoc k inp.customVars <;> simp
  · rfl

theorem replaceFirstT_append_of_mem (l suf : List Char) (h : 'T' ∈ l) :
    replaceFirstT (l ++ suf) = replaceFirstT l ++ suf := by
  induction l with
  | nil => simp at h
  | cons c l ih =>
    by_cases hc : c = 'T'
    · subst hc; simp [replaceFirstT]
    · have hm : 'T' ∈ l := by
        rcases List.mem_cons.mp h with h1 | h1
        · exact absurd h1.symm hc
        · exact h1
      simp [replaceFirstT, hc, ih hm]

theorem not_dot_replaceFirstT (l : List Char) (h : '.' ∉ l) : '.' ∉ replaceFirstT l := by
  induction l with
  | nil => simp [replaceFirstT]
  | cons c l ih =>
    simp only [List.mem_cons, not_or] at h
    by_cases hc : c = 'T'
    · subst hc
      intro hmem
      rw [replaceFirstT, if_pos rfl] at hmem
      rcases List.mem_cons.mp hmem with h1 | h1
      · exact absurd h1 (by decide)
      · exact h.2 h1
    · intro hmem
      rw [replaceFirstT, if_neg hc] at hmem
      rcases List.mem_cons.mp hmem with h1 | h1
      · exact h.1 h1
      · exact ih h.2 h1

theorem dropWordRun_all_word (l : List Char) (h : ∀ c ∈ l, isWordChar c = true) :
    dropWordRun l = [] := by
  induction l with
  | nil => rfl
  | cons c l ih =>
    simp [dropWordRun, h c (by simp), ih (fun c hc => h c (by simp [hc]))]

theorem removeDotWord_append_dot (l : List Char) (hl : '.' ∉ l) (d : Char)
    (ds : List Char) (hd : isWordChar d = true) :
    removeDotWord (l ++ '.' :: d :: ds) = l ++ dropWordRun ds := by
  induction l with
  | nil => simp [removeDotWord, hd]
  | cons a l ih =>
    simp only [List.mem_cons, not_or] at hl
    have ha : ¬ a = '.' := fun hh => hl.1 hh.symm
    rw [List.cons_append, removeDotWord.eq_def]
    simp only [if_neg ha]
    rw [ih hl.2, List.cons_append]

/-- C10 counterexample: for the instant 2020-01-02 03:04:05.678 UTC the
`DATE` value computed by `createFile` keeps the seconds field — it is not
the value truncated to the minute that the claim describes. -/
theorem date_keeps_seconds_counterexample :
    dateFormat "2020-01-02T03:04:05.678Z" = "2020-01-02 03:04:05"
    ∧ dateFormat "2020-01-02T03:04:05.678Z" ≠ truncToMinute "2020-01-02T03:04:05.678Z" := by
  constructor
  · rfl
  · decide

/-- C10 amended: the `DATE` value is the ISO timestamp with the first `T`
replaced by a space and the first dot together with the following run of
word characters — the milliseconds and the trailing `Z` — removed; the
value is truncated to the second, not to the minute. -/
theorem date_truncated_to_second (pre frac : List Char)
    (hT : 'T' ∈ pre) (hdot : '.' ∉ pre) (hne : frac ≠ [])
    (hw : ∀ c ∈ frac, isWordChar c = true) :
    dateFormat (String.mk (pre ++ '.' :: frac)) = String.mk (replaceFirstT pre) := by
  cases frac with
  | nil => exact absurd rfl hne
  | cons d ds =>
    show String.mk (removeDotWord (replaceFirstT (pre ++ '.' :: d :: ds)))
      = String.mk (replaceFirstT pre)
    rw [replaceFirstT_append_of_mem _ _ hT,
      removeDotWord_append_dot _ (not_dot_replaceFirstT _ hdot) _ _ (hw d (by simp)),
      dropWordRun_all_word _ (fun c hc => hw c (by simp [hc])), List.append_nil]

/-- Witness for the amended C10 at the concrete ISO timestamp
2020-01-02T03:04:05.678Z. -/
theorem date_truncated_to_second_witness :
    ('T' ∈ "2020-01-02T03:04:05".data) ∧ ('.' ∉ "2020-01-02T03:04:05".data)
    ∧ ("678Z".data ≠ []) ∧ (∀ c ∈ "678Z".data, isWordChar c = true)
    ∧ dateFormat (String.mk ("2020-01-02T03:04:05".data ++ '.' :: "678Z".data))
        = String.mk (replaceFirstT "2020-01-02T03:04:05".data) :=
  ⟨by decide, by decide, by decide, by decide,
    date_truncated_to_second "2020-01-02T03:04:05".data "678Z".data
      (by decide) (by decide) (by decide) (by decide)⟩

/-- C2 counterexample: starting from a fresh workspace, two consecutive
root-level tree queries — with no scan resolution in between — leave two
scans outstanding, refuting the claim that at most one scan per workspace
is ever outstanding. -/
theorem second_root_query_starts_second_scan :
    ¬ ((workspaceNode (workspaceNode freshWorkspace).2).2.pendingScans ≤ 1) := by
  decide

/-- C2 amended: while the templates of a workspace are not yet loaded, a
children query returns the empty list and starts no scan; but every
root-level query builds a loading node and starts one more scan — the
number of outstanding scans is not bounded. -/
theorem loading_query_behaviour (m : WorkspaceModel)
    (h : (ensureEntry m).templates = none) :
    (workspaceNodeChildren m).1 = []
    ∧ (workspaceNodeChildren m).2.pendingScans = m.pendingScans
    ∧ (workspaceNode m).2.pendingScans = m.pendingScans + 1
    ∧ (workspaceNode m).1.isLoading = true := by
  refine ⟨?_, ?_, ?_, ?_⟩ <;> simp [workspaceNodeChildren, workspaceNode, h]

/-- Witness for the amended C2 in the state reached after one root query:
one scan is already in flight and the templates are still unloaded. -/
theorem loading_query_behaviour_witness :
    ((ensureEntry (workspaceNode freshWorkspace).2).templates = none)
    ∧ ((workspaceNodeChildren (workspaceNode freshWorkspace).2).1 = []
      ∧ (workspaceNodeChildren (workspaceNode freshWorkspace).2).2.pendingScans
          = (workspaceNode freshWorkspace).2.pendingScans
      ∧ (workspaceNode (workspaceNode freshWorkspace).2).2.pendingScans
          = (workspaceNode freshWorkspace).2.pendingScans + 1
      ∧ (workspaceNode (workspaceNode freshWorkspace).2).1.isLoading = true) :=
  ⟨rfl, loading_query_behaviour (workspaceNode freshWorkspace).2 rfl⟩

theorem filterMap_scanKeep_of_excluded (a : String) (hex : excludedDirName a = true) :
    ∀ (t : FsTree) (ancs : List String) (pfx : String), a ∈ ancs →
      (allFiles ancs pfx t).filterMap scanKeep = []
  | FsTree.nil, _, _, _ => rfl
  | FsTree.file n rest, ancs, pfx, ha => by
    have hall : ancs.all (fun x => !excludedDirName x) = false := by
      apply Bool.eq_false_iff.mpr
      intro hT
      have := List.all_eq_true.mp hT a ha
      simp [hex] at this
    have hcond : ¬ ((ancs.all (fun x => !excludedDirName x)
        && jsEndsWith n templateExtension) = true) := by
      simp [hall]
    simp only [allFiles, List.filterMap_cons, scanKeep, if_neg hcond]
    exact filterMap_scanKeep_of_excluded a hex rest ancs pfx ha
  | FsTree.dir n cs rest, ancs, pfx, ha => by
    simp only [allFiles, List.filterMap_append]
    rw [filterMap_scanKeep_of_excluded a hex cs (ancs ++ [n]) (pathJoin pfx n)
        (List.mem_append_left _ ha),
      filterMap_scanKeep_of_excluded a hex rest ancs pfx ha]
    rfl

theorem scan_eq_filterMap_allFiles :
    ∀ (t : FsTree) (ancs : List String) (pfx : String),
      (∀ a ∈ ancs, excludedDirName a = false) →
      scan pfx t = (allFiles ancs pfx t).filterMap scanKeep
  | FsTree.nil, _, _, _ => rfl
  | FsTree.file n rest, ancs, pfx, h => by
    have hall : ancs.all (fun x => !excludedDirName x) = true :=
      List.all_eq_true.mpr (fun a ha => by simp [h a ha])
    rw [scan, allFiles, List.filterMap_cons,
      scan_eq_filterMap_allFiles rest ancs pfx h]
    by_cases he : jsEndsWith n templateExtension = true
    · simp [scanKeep, hall, he]
    · simp [scanKeep, hall, Bool.eq_false_iff.mpr he,
        Bool.eq_false_iff.mpr he]
  | FsTree.dir n cs rest, ancs, pfx, h => by
    rw [scan, allFiles, List.filterMap_append,
      scan_eq_filterMap_allFiles rest ancs pfx h]
    by_cases hex : excludedDirName n = true
    · rw [filterMap_scanKeep_of_excluded n hex cs (ancs ++ [n]) (pathJoin pfx n)
        (List.mem_append_right _ (by simp))]
      simp [hex]
    · have hn : excludedDirName n = false := Bool.eq_false_iff.mpr hex
      rw [scan_eq_filterMap_allFiles cs (ancs ++ [n]) (pathJoin pfx n)
        (fun a ha => by
          rcases List.mem_append.mp ha with h1 | h1
          · exact h a h1
          · rw [List.mem_singleton.mp h1]; exact hn)]
      simp [hn]

/-- C5 counterexample: a template file inside a directory named `distro` —
not one of the three excluded names, but containing `dist` as a
substring — is pruned by the scan and yields no record, while the claim
requires exactly one record for it. -/
theorem scan_substring_exclusion_counterexample :
    scanTemplates (fun _ => "code") "/w"
        (FsTree.dir "distro" (FsTree.file "a.dotjs" FsTree.nil) FsTree.nil) = []
    ∧ (specScanTemplates (fun _ => "code") "/w"
        (FsTree.dir "distro" (FsTree.file "a.dotjs" FsTree.nil) FsTree.nil)).map Template.name
      = ["a"]
    ∧ scanTemplates (fun _ => "code") "/w"
        (FsTree.dir "distro" (FsTree.file "a.dotjs" FsTree.nil) FsTree.nil)
      ≠ specScanTemplates (fun _ => "code") "/w"
        (FsTree.dir "distro" (FsTree.file "a.dotjs" FsTree.nil) FsTree.nil) := by
  refine ⟨by decide, by decide, by decide⟩

/-- C5 amended: after a completed scan the template list contains exactly
one record per file whose basename ends with the template extension and
none of whose ancestor directory basenames CONTAINS the substring
`node_modules`, `dist` or `build` (a substring test, not an exact-name
test), and no other file yields a record. -/
theorem scan_exact_record_per_matching_file (fs : String → String) (root : String)
    (t : FsTree) :
    scanTemplates fs root t =
      (allFiles [] root t).filterMap (fun x =>
        if x.1.all (fun a => !excludedDirName a) && jsEndsWith x.2.1 templateExtension
        then some (readTemplate fs x.2.1 x.2.2)
        else none) := by
  unfold scanTemplates
  rw [scan_eq_filterMap_allFiles t [] root (by simp), List.map_filterMap]
  apply List.filterMap_congr
  intro x _
  unfold scanKeep
  by_cases hc : (x.1.all (fun a => !excludedDirName a)
      && jsEndsWith x.2.1 templateExtension) = true
  · simp [hc]
  · simp [Bool.eq_false_iff.mpr hc]

theorem jsFindIndex_of_not_mem {α : Type} (p : α → Bool) :
    ∀ (l : List α), (∀ a ∈ l, p a = false) → jsFindIndex p l = -1
  | [], _ => rfl
  | a :: l, h => by
    have ih := jsFindIndex_of_not_mem p l (fun b hb => h b (by simp [hb]))
    simp [jsFindIndex, h a (by simp), ih]

theorem jsFindIndex_first {α : Type} (p : α → Bool) :
    ∀ (l : List α) (i : Nat) (hi : i < l.length),
      p (l.get ⟨i, hi⟩) = true →
      (∀ j (hj : j < l.length), j < i → p (l.get ⟨j, hj⟩) = false) →
      jsFindIndex p l = i
  | [], i, hi, _, _ => absurd hi (by simp)
  | a :: l, 0, _, hp, _ => by
    have hpa : p a = true := hp
    simp [jsFindIndex, hpa]
  | a :: l, Nat.succ i, hi, hp, hfirst => by
    have ha : p a = false := hfirst 0 (by simp) (Nat.succ_pos i)
    have hi2 : i < l.length := Nat.lt_of_succ_lt_succ (by simpa using hi)
    have hp2 : p (l.get ⟨i, hi2⟩) = true := hp
    have hf2 : ∀ j (hj : j < l.length), j < i → p (l.get ⟨j, hj⟩) = false :=
      fun j hj hji =>
        hfirst (j + 1) (by simpa using Nat.succ_lt_succ hj) (Nat.succ_lt_succ hji)
    have ih := jsFindIndex_first p l i hi2 hp2 hf2
    simp only [jsFindIndex, ha, Bool.false_eq_true, if_false, ih]
    have hnneg : ¬ ((i : Int) < 0) := by omega
    simp only [if_neg hnneg]
    omega

theorem jsSplice1_nat (l : List Template) (i : Nat) (hi : i < l.length) :
    jsSplice1 l (i : Int) = l.take i ++ l.drop (i + 1) := by
  unfold jsSplice1
  have hnneg : ¬ ((i : Int) < 0) := by omega
  simp only [if_neg hnneg, Int.toNat_natCast]
  rw [Nat.min_eq_left (Nat.le_of_lt hi)]

/-- C6: a watcher delete event whose path equals the path of a record of
the loaded list removes exactly the first such record — the records before
and after it are kept unchanged — and the handler triggers no rescan. -/
theorem watcher_delete_removes_matching (ts : List Template) (P : String)
    (i : Nat) (hi : i < ts.length)
    (hmatch : (ts.get ⟨i, hi⟩).path = P)
    (hfirst : ∀ j (hj : j < ts.length), j < i → (ts.get ⟨j, hj⟩).path ≠ P) :
    (onDidDelete P (some ts)).1 = some (ts.take i ++ ts.drop (i + 1))
    ∧ WatchEffect.startScan ∉ (onDidDelete P (some ts)).2 := by
  have hidx : jsFindIndex (fun t => t.path == P) ts = i := by
    apply jsFindIndex_first
    · simpa using hmatch
    · intro j hj hji
      simpa using hfirst j hj hji
  constructor
  · show some (jsSplice1 ts (jsFindIndex (fun t => t.path == P) ts)) = _
    rw [hidx, jsSplice1_nat ts i hi]
  · simp [onDidDelete]

/-- Witness for C6: a two-record catalog in which the delete path matches
the second record; exactly that record is removed. -/
theorem watcher_delete_removes_matching_witness :
    (([⟨"t1", "t1.dotjs", "c1", "/w/t1.dotjs"⟩,
        ⟨"t2", "t2.dotjs", "c2", "/w/t2.dotjs"⟩] : List Template).get
          ⟨1, by decide⟩).path = "/w/t2.dotjs"
    ∧ (onDidDelete "/w/t2.dotjs"
        (some [⟨"t1", "t1.dotjs", "c1", "/w/t1.dotjs"⟩,
          ⟨"t2", "t2.dotjs", "c2", "/w/t2.dotjs"⟩])).1
      = some ([(⟨"t1", "t1.dotjs", "c1", "/w/t1.dotjs"⟩ : Template),
          ⟨"t2", "t2.dotjs", "c2", "/w/t2.dotjs"⟩].take 1
        ++ [(⟨"t1", "t1.dotjs", "c1", "/w/t1.dotjs"⟩ : Template),
          ⟨"t2", "t2.dotjs", "c2", "/w/t2.dotjs"⟩].drop 2)
    ∧ WatchEffect.startScan ∉ (onDidDelete "/w/t2.dotjs"
        (some [⟨"t1", "t1.dotjs", "c1", "/w/t1.dotjs"⟩,
          ⟨"t2", "t2.dotjs", "c2", "/w/t2.dotjs"⟩])).2 := by
  refine ⟨by decide, ?_, ?_⟩
  · exact (watcher_delete_removes_matching
      [⟨"t1", "t1.dotjs", "c1", "/w/t1.dotjs"⟩, ⟨"t2", "t2.dotjs", "c2", "/w/t2.dotjs"⟩]
      "/w/t2.dotjs" 1 (by decide) (by decide)
      (fun j hj hji => by
        have hj0 : j = 0 := by omega
        subst hj0
        simp)).1
  · exact (watcher_delete_removes_matching
      [⟨"t1", "t1.dotjs", "c1", "/w/t1.dotjs"⟩, ⟨"t2", "t2.dotjs", "c2", "/w/t2.dotjs"⟩]
      "/w/t2.dotjs" 1 (by decide) (by decide)
      (fun j hj hji => by
        have hj0 : j = 0 := by omega
        subst hj0
        simp)).2

/-- C7: a watcher delete event whose path matches no record of a loaded,
non-empty list still mutates the list — `findIndex` yields -1, which is
not `undefined`, and `splice(-1, 1)` removes the LAST record — so the list
does not stay unchanged. -/
theorem watcher_delete_nonmatching_removes_last (ts : List Template) (P : String)
    (hne : ts ≠ []) (hnomatch : ∀ t ∈ ts, t.path ≠ P) :
    (onDidDelete P (some ts)).1 = some ts.dropLast
    ∧ (onDidDelete P (some ts)).1 ≠ some ts := by
  have hlen : 1 ≤ ts.length := by
    cases ts with
    | nil => exact absurd rfl hne
    | cons a l => simp
  have hidx : jsFindIndex (fun t => t.path == P) ts = -1 :=
    jsFindIndex_of_not_mem _ _ (fun a ha => by simpa using hnomatch a ha)
  have hmain : (onDidDelete P (some ts)).1 = some ts.dropLast := by
    show some (jsSplice1 ts (jsFindIndex (fun t => t.path == P) ts)) = _
    rw [hidx]
    unfold jsSplice1
    have hneg : ((-1 : Int) < 0) := by omega
    simp only [if_pos hneg]
    have hs : ((-1 : Int) + ts.length).toNat = ts.length - 1 := by omega
    rw [hs]
    have hdrop : ts.length - 1 + 1 = ts.length := by omega
    rw [hdrop, List.drop_length, List.append_nil, List.dropLast_eq_take]
  refine ⟨hmain, ?_⟩
  rw [hmain]
  intro hcontra
  have : ts.dropLast = ts := Option.some_injective _ hcontra
  have hlendrop := List.length_dropLast ts
  rw [this] at hlendrop
  omega

/-- Witness for C7: a delete event for a path held by no record removes
the last of two records. -/
theorem watcher_delete_nonmatching_removes_last_witness :
    (([⟨"t1", "t1.dotjs", "c1", "/w/t1.dotjs"⟩,
        ⟨"t2", "t2.dotjs", "c2", "/w/t2.dotjs"⟩] : List Template) ≠ [])
    ∧ (∀ t ∈ ([⟨"t1", "t1.dotjs", "c1", "/w/t1.dotjs"⟩,
        ⟨"t2", "t2.dotjs", "c2", "/w/t2.dotjs"⟩] : List Template), t.path ≠ "/w/gone.dotjs")
    ∧ (onDidDelete "/w/gone.dotjs"
        (some [⟨"t1", "t1.dotjs", "c1", "/w/t1.dotjs"⟩,
          ⟨"t2", "t2.dotjs", "c2", "/w/t2.dotjs"⟩])).1
      = some ([(⟨"t1", "t1.dotjs", "c1", "/w/t1.dotjs"⟩ : Template),
          ⟨"t2", "t2.dotjs", "c2", "/w/t2.dotjs"⟩].dropLast)
    ∧ (onDidDelete "/w/gone.dotjs"
        (some [⟨"t1", "t1.dotjs", "c1", "/w/t1.dotjs"⟩,
          ⟨"t2", "t2.dotjs", "c2", "/w/t2.dotjs"⟩])).1
      ≠ some [⟨"t1", "t1.dotjs", "c1", "/w/t1.dotjs"⟩,
          ⟨"t2", "t2.dotjs", "c2", "/w/t2.dotjs"⟩] := by
  refine ⟨by decide, by decide, ?_, ?_⟩
  · exact (watcher_delete_nonmatching_removes_last
      [⟨"t1", "t1.dotjs", "c1", "/w/t1.dotjs"⟩, ⟨"t2", "t2.dotjs", "c2", "/w/t2.dotjs"⟩]
      "/w/gone.dotjs" (by decide) (by decide)).1
  · exact (watcher_delete_nonmatching_removes_last
      [⟨"t1", "t1.dotjs", "c1", "/w/t1.dotjs"⟩, ⟨"t2", "t2.dotjs", "c2", "/w/t2.dotjs"⟩]
      "/w/gone.dotjs" (by decide) (by decide)).2

theorem string_eq_of_data_eq (b1 b2 : String) (h : b1.data = b2.data) : b1 = b2 :=
  congrArg String.mk h

theorem strip_ext_inj (b1 b2 : String)
    (h1 : jsEndsWith b1 templateExtension = true)
    (h2 : jsEndsWith b2 templateExtension = true)
    (heq : b1.data.take (b1.data.length - templateExtension.data.length)
         = b2.data.take (b2.data.length - templateExtension.data.length)) :
    b1 = b2 := by
  obtain ⟨p1, hp1⟩ := List.isSuffixOf_iff_suffix.mp h1
  obtain ⟨p2, hp2⟩ := List.isSuffixOf_iff_suffix.mp h2
  have e1 : b1.data.take (b1.data.length - templateExtension.data.length) = p1 := by
    rw [← hp1]
    have hL : (p1 ++ templateExtension.data).length - templateExtension.data.length
        = p1.length := by
      simp
    rw [hL, List.take_left]
  have e2 : b2.data.take (b2.data.length - templateExtension.data.length) = p2 := by
    rw [← hp2]
    have hL : (p2 ++ templateExtension.data).length - templateExtension.data.length
        = p2.length := by
      simp
    rw [hL, List.take_left]
  apply string_eq_of_data_eq
  rw [← hp1, ← hp2]
  rw [e1, e2] at heq
  rw [heq]

theorem scan_entry_endsWith :
    ∀ (t : FsTree) (pfx : String) (e : String × String), e ∈ scan pfx t →
      jsEndsWith e.1 templateExtension = true
  | FsTree.nil, _, _, h => absurd h (List.not_mem_nil _)
  | FsTree.file n rest, pfx, e, h => by
    rw [scan] at h
    rcases List.mem_append.mp h with h1 | h1
    · by_cases he : jsEndsWith n templateExtension = true
      · rw [if_pos he] at h1
        rw [List.mem_singleton.mp h1]
        exact he
      · rw [if_neg he] at h1
        exact absurd h1 (List.not_mem_nil _)
    · exact scan_entry_endsWith rest pfx e h1
  | FsTree.dir n cs rest, pfx, e, h => by
    rw [scan] at h
    rcases List.mem_append.mp h with h1 | h1
    · by_cases hex : excludedDirName n = true
      · rw [if_pos hex] at h1
        exact absurd h1 (List.not_mem_nil _)
      · rw [if_neg hex] at h1
        exact scan_entry_endsWith cs (pathJoin pfx n) e h1
    · exact scan_entry_endsWith rest pfx e h1

theorem jsSplice1_sublist (l : List Template) (start : Int) :
    (jsSplice1 l start).Sublist l := by
  unfold jsSplice1
  set s := if start < 0 then (start + l.length).toNat else min start.toNat l.length with hs
  have h1 : (l.drop (s + 1)).Sublist (l.drop s) := by
    have hd : l.drop (s + 1) = List.drop 1 (l.drop s) := by
      rw [List.drop_drop]
    rw [hd]
    exact List.drop_sublist 1 _
  have h2 := h1.append_left (l.take s)
  rwa [List.take_append_drop] at h2

set_option maxHeartbeats 1000000 in
/-- C8 counterexample: scanning a workspace that holds files named
`t.dotjs` in two different directories produces two records with the same
`name`, so the scan does not preserve name uniqueness. -/
theorem duplicate_basename_breaks_name_uniqueness :
    ¬ ((scanTemplates (fun _ => "code") "/w"
        (FsTree.dir "a" (FsTree.file "t.dotjs" FsTree.nil)
          (FsTree.dir "b" (FsTree.file "t.dotjs" FsTree.nil) FsTree.nil))).map
            Template.name).Nodup := by
  decide

/-- C8 amended: the delete handler always preserves name uniqueness; the
create handler preserves it provided the derived name of the created file
is not already present; a completed scan yields unique names provided the
basenames of the matching files are pairwise distinct (two files with the
same basename in different directories yield duplicate names). -/
theorem catalog_name_uniqueness_conditions (fs : String → String) (root : String)
    (t : FsTree) (ts : List Template) (createPath deletePath : String)
    (hscan : ((scan root t).map Prod.fst).Nodup)
    (hts : (ts.map Template.name).Nodup)
    (hfresh : (readTemplate fs (jsBasename createPath) createPath).name
      ∉ ts.map Template.name) :
    ((scanTemplates fs root t).map Template.name).Nodup
    ∧ namesNodupOpt (onDidCreate fs createPath (some ts)).1
    ∧ namesNodupOpt (onDidDelete deletePath (some ts)).1 := by
  refine ⟨?_, ?_, ?_⟩
  · unfold scanTemplates
    rw [List.map_map]
    apply List.Nodup.map_on
    · intro x hx y hy hxy
      have hex : jsEndsWith x.1 templateExtension = true := scan_entry_endsWith t root x hx
      have hey : jsEndsWith y.1 templateExtension = true := scan_entry_endsWith t root y hy
      have hxy2 : (readTemplate fs x.1 x.2).name = (readTemplate fs y.1 y.2).name := hxy
      simp only [readTemplate] at hxy2
      rw [if_pos hex, if_pos hey] at hxy2
      have hd : x.1.data.take (x.1.data.length - templateExtension.data.length)
          = y.1.data.take (y.1.data.length - templateExtension.data.length) :=
        congrArg String.data hxy2
      exact List.inj_on_of_nodup_map hscan hx hy (strip_ext_inj x.1 y.1 hex hey hd)
    · exact List.Nodup.of_map _ hscan
  · show ((ts ++ [readTemplate fs (jsBasename createPath) createPath]).map
      Template.name).Nodup
    rw [List.map_append]
    rw [List.nodup_append]
    refine ⟨hts, by simp, ?_⟩
    intro a ha hb
    rw [List.map_singleton, List.mem_singleton] at hb
    rw [hb] at ha
    exact hfresh ha
  · have h := List.Nodup.sublist
      ((jsSplice1_sublist ts (jsFindIndex (fun t => t.path == deletePath) ts)).map
        Template.name) hts
    simpa [namesNodupOpt, onDidDelete] using h

/-- Witness for the amended C8: a scan of two distinct basenames, a create
event for a fresh name, and a delete event, all preserving name
uniqueness. -/
theorem catalog_name_uniqueness_conditions_witness :
    ((scan "/w" (FsTree.file "x.dotjs" (FsTree.file "y.dotjs" FsTree.nil))).map
        Prod.fst).Nodup
    ∧ (([⟨"t1", "t1.dotjs", "c1", "/w/t1.dotjs"⟩] : List Template).map
        Template.name).Nodup
    ∧ ((readTemplate (fun _ => "c") (jsBasename "/w/new.dotjs") "/w/new.dotjs").name
        ∉ ([⟨"t1", "t1.dotjs", "c1", "/w/t1.dotjs"⟩] : List Template).map Template.name)
    ∧ (((scanTemplates (fun _ => "c") "/w"
          (FsTree.file "x.dotjs" (FsTree.file "y.dotjs" FsTree.nil))).map
            Template.name).Nodup
      ∧ namesNodupOpt (onDidCreate (fun _ => "c") "/w/new.dotjs"
          (some [⟨"t1", "t1.dotjs", "c1", "/w/t1.dotjs"⟩])).1
      ∧ namesNodupOpt (onDidDelete "/w/t1.dotjs"
          (some [⟨"t1", "t1.dotjs", "c1", "/w/t1.dotjs"⟩])).1) :=
  ⟨by decide, by decide, by decide,
    catalog_name_uniqueness_conditions (fun _ => "c") "/w"
      (FsTree.file "x.dotjs" (FsTree.file "y.dotjs" FsTree.nil))
      [⟨"t1", "t1.dotjs", "c1", "/w/t1.dotjs"⟩] "/w/new.dotjs" "/w/t1.dotjs"
      (by decide) (by decide) (by decide)⟩

end DotjsTemplates
